import Mathlib

/-
Shallow embedding of the user/auth stack of the react-chat-app-backend
repository: the generic Mongo repository (src/common/database/
abstract.repository.ts), the users service (src/users/users.service.ts),
the local passport strategy (src/auth/strategies/local.strategy.ts), the
auth service login flow (quoted in src/documentation/SECTION5_CHAPTER_19.md)
and the GraphQL projection of the User entity
(src/users/entities/user.entity.ts).

MongoDB ObjectIds are modelled as naturals drawn from a fresh counter; a
collection is a list of documents in insertion order; asynchronous calls
are sequentialised (each request runs to completion, per the repository's
single-threaded-per-request model); thrown exceptions are modelled with
`Except`; the logger is modelled as the list of diagnostics emitted during
a call, in emission order.
-/

/-- User document (src/users/entities/user.entity.ts): `_id` from
AbstractEntity plus `email` and `password` props.  The password field
holds whatever string the service layer stored there (normally a bcrypt
hash). -/
structure User where
  _id : Nat
  email : String
  password : String
  deriving DecidableEq, Repr

/-- Errors thrown by the stack: `NotFoundException` from the abstract
repository, `UnauthorizedException` with a message from
`UsersService.verifyUser`, `UnauthorizedException(err)` wrapping an inner
error from `LocalStrategy.validate`, and the MongoDB E11000 duplicate-key
error raised by the unique email index. -/
inductive NestError where
  | notFound (msg : String)
  | unauthorized (msg : String)
  | unauthorizedWrap (inner : NestError)
  | duplicateKey (msg : String)
  deriving DecidableEq, Repr

/-- HTTP status code NestJS associates with each error kind:
`NotFoundException` is 404, `UnauthorizedException` (with either a message
or a wrapped error argument) is 401, and an untranslated driver error such
as E11000 surfaces as 500. -/
def NestError.statusCode : NestError → Nat
  | .notFound _ => 404
  | .unauthorized _ => 401
  | .unauthorizedWrap _ => 401
  | .duplicateKey _ => 500

/-- Diagnostic record emitted through the NestJS Logger. -/
structure LogEntry where
  level : String
  message : String
  deriving DecidableEq, Repr

/-- Model of the random salt bcrypt embeds in each hash, rendered as a
string of `salt` marker characters so that distinct salts give hash
strings of distinct lengths. -/
def bcryptSaltStr (salt : Nat) : String :=
  String.mk (List.replicate salt 'u')

/-- Model of `bcrypt.hash(password, 10)` (external bcrypt library, called
from src/users/users.service.ts): the output string embeds the
version/cost prefix, the per-hash random salt and a digest determined by
salt and password.  The randomness of the salt is made explicit as the
`salt` argument; the digest is modelled injectively. -/
def bcryptHash (password : String) (salt : Nat) : String :=
  "$2b$10$" ++ bcryptSaltStr salt ++ "$" ++ password

/-- Model of `bcrypt.compare(password, hash)`: true iff `hash` is the
bcrypt hash of `password` under some salt (real bcrypt re-reads the salt
from the hash and recomputes; a salt never exceeds the hash length). -/
def bcryptCompare (password hash : String) : Bool :=
  decide (∃ s : Fin (hash.length + 1), hash = bcryptHash password s.val)

theorem bcryptSaltStr_length (s : Nat) : (bcryptSaltStr s).length = s := by
  show (List.replicate s 'u').length = s
  simp

theorem bcryptHash_length (p : String) (s : Nat) :
    (bcryptHash p s).length = p.length + s + 8 := by
  show ("$2b$10$" ++ bcryptSaltStr s ++ "$" ++ p).length = p.length + s + 8
  rw [String.length_append, String.length_append, String.length_append,
    bcryptSaltStr_length]
  have h7 : ("$2b$10$" : String).length = 7 := rfl
  have h1 : ("$" : String).length = 1 := rfl
  rw [h7, h1]
  omega

/-- A bcrypt hash is strictly longer than the hashed plaintext, hence
never equal to it. -/
theorem bcryptHash_ne_password (p : String) (s : Nat) :
    bcryptHash p s ≠ p := by
  intro h
  have := congrArg String.length h
  rw [bcryptHash_length] at this
  omega

/-- Hashes of the same plaintext under distinct salts differ (their
lengths differ). -/
theorem bcryptHash_salt_ne (p : String) {s₁ s₂ : Nat} (h : s₁ ≠ s₂) :
    bcryptHash p s₁ ≠ bcryptHash p s₂ := by
  intro he
  have := congrArg String.length he
  rw [bcryptHash_length, bcryptHash_length] at this
  omega

namespace AbstractRepository

/-- Payload accepted by `AbstractRepository.create`.  The TypeScript type
is `Omit<TDocument, '_id'>` (instantiated at User), so callers cannot name
`_id`; the optional `_id` field models a caller nonetheless smuggling a
pre-existing identifier in at runtime, which the spread
`{ ...document, _id: new Types.ObjectId() }` overrides unconditionally. -/
structure UserPayload where
  email : String
  password : String
  _id : Option Nat := none
  deriving DecidableEq, Repr

/-- AbstractRepository.create (src/common/database/abstract.repository.ts)
at the User document type: builds the document from the payload with
`_id := new Types.ObjectId()` — the fresh counter value, overriding any
payload-supplied `_id` by spread order — saves it at the end of the
collection and returns the saved document, the new collection state and
the advanced counter. -/
def create (docs : List User) (nextId : Nat) (document : UserPayload) :
    User × List User × Nat :=
  let createdDocument : User :=
    { _id := nextId, email := document.email, password := document.password }
  (createdDocument, docs ++ [createdDocument], nextId + 1)

/-- AbstractRepository.findOne: returns the first document matching the
filter query; if none matches, it first logs a warning ("Document not
found with filterQuery") and then throws
`NotFoundException("Document not found")`.  The second component is the
list of diagnostics emitted during the call, in emission order (so the
warning is recorded before the failure is raised). -/
def findOne {α : Type} (docs : List α) (filterQuery : α → Bool) :
    Except NestError α × List LogEntry :=
  match docs.find? filterQuery with
  | some document => (Except.ok document, [])
  | none =>
      (Except.error (NestError.notFound "Document not found"),
       [⟨"warn", "Document not found with filterQuery"⟩])

/-- Replace the first document matching the filter with the update
applied to it (mongoose `findOneAndUpdate` touches only the first
match). -/
def updateFirst {α : Type} (docs : List α) (filterQuery : α → Bool)
    (upd : α → α) : List α :=
  match docs with
  | [] => []
  | d :: rest =>
      if filterQuery d then upd d :: rest
      else d :: updateFirst rest filterQuery upd

/-- AbstractRepository.findOneAndUpdate with option `new: true`: applies
the update to the first matching document and returns its post-update
state; if none matches, logs the same warning and then throws
`NotFoundException("Document not found")`, leaving the collection
unchanged. -/
def findOneAndUpdate {α : Type} (docs : List α) (filterQuery : α → Bool)
    (upd : α → α) : Except NestError α × List α × List LogEntry :=
  match docs.find? filterQuery with
  | some document =>
      (Except.ok (upd document), updateFirst docs filterQuery upd, [])
  | none =>
      (Except.error (NestError.notFound "Document not found"), docs,
       [⟨"warn", "Document not found with filterQuery"⟩])

/-- AbstractRepository.find: all matching documents (possibly the empty
list); never throws. -/
def find {α : Type} (docs : List α) (filterQuery : α → Bool) : List α :=
  docs.filter filterQuery

/-- AbstractRepository.findOneAndDelete: removes the first matching
document and returns its pre-deletion state, or `none` (the driver's
null) when nothing matched — no exception, no diagnostic. -/
def findOneAndDelete {α : Type} (docs : List α) (filterQuery : α → Bool) :
    Option α × List α :=
  match docs.find? filterQuery with
  | some document => (some document, docs.eraseP filterQuery)
  | none => (none, docs)

end AbstractRepository

/-- CreateUserInput dto (src/users/dto/create-user.input.ts): email and
password. -/
structure CreateUserInput where
  email : String
  password : String
  deriving DecidableEq, Repr

/-- UpdateUserInput dto (src/users/dto/update-user.input.ts):
`PartialType(CreateUserInput)`, i.e. both fields optional; `none` models
an absent property. -/
structure UpdateUserInput where
  email : Option String := none
  password : Option String := none
  deriving DecidableEq, Repr

namespace UsersService

/-- UsersService.hashPassword: `bcrypt.hash(password, 10)`; the salt
bcrypt draws at random is the explicit `salt` argument. -/
def hashPassword (password : String) (salt : Nat) : String :=
  bcryptHash password salt

/-- UsersService.create: spreads the input and overrides `password` with
its hash before delegating to the repository's create. -/
def create (docs : List User) (nextId : Nat) (input : CreateUserInput)
    (salt : Nat) : User × List User × Nat :=
  AbstractRepository.create docs nextId
    { email := input.email, password := hashPassword input.password salt }

/-- JavaScript truthiness of `updateUserInput.password`: an absent
property and the empty string are both falsy. -/
def passwordTruthy : Option String → Bool
  | none => false
  | some s => !s.isEmpty

/-- MongoDB `$set` with the spread patch `{ $set: { ...updateUserInput } }`:
sets exactly the fields present in the patch and leaves the other fields
(including `_id`) unchanged. -/
def applySet (patch : UpdateUserInput) (u : User) : User :=
  { u with email := patch.email.getD u.email,
           password := patch.password.getD u.password }

/-- The patch UsersService.update actually forwards: if the patch's
password is truthy it is replaced by its hash, otherwise the patch is
forwarded unchanged. -/
def effectivePatch (input : UpdateUserInput) (salt : Nat) : UpdateUserInput :=
  if passwordTruthy input.password then
    { input with password := some (hashPassword (input.password.getD "") salt) }
  else input

/-- UsersService.update: re-hashes a truthy patch password, then delegates
to `findOneAndUpdate({ _id }, { $set: { ...patch } })`. -/
def update (docs : List User) (targetId : Nat) (input : UpdateUserInput)
    (salt : Nat) : Except NestError User × List User × List LogEntry :=
  AbstractRepository.findOneAndUpdate docs (fun u => u._id == targetId)
    (applySet (effectivePatch input salt))

/-- UsersService.findAll: `find({})` — the empty filter matches every
document. -/
def findAll (docs : List User) : List User :=
  AbstractRepository.find docs (fun _ => true)

/-- UsersService.findOne: `findOne({ _id })`. -/
def findOne (docs : List User) (targetId : Nat) :
    Except NestError User × List LogEntry :=
  AbstractRepository.findOne docs (fun u => u._id == targetId)

/-- UsersService.remove: `findOneAndDelete({ _id })`. -/
def remove (docs : List User) (targetId : Nat) : Option User × List User :=
  AbstractRepository.findOneAndDelete docs (fun u => u._id == targetId)

/-- UsersService.verifyUser: looks the user up with the repository's
`findOne({ email })` — which itself throws `NotFoundException` when no
user carries the email, so the subsequent `if (!user)` guard of the
source (throwing `UnauthorizedException('Credentials are not valid')`)
can never run for a missing user — then compares the supplied plaintext
against the stored hash with `bcrypt.compare` and throws
`UnauthorizedException('Credentials are not valid')` on mismatch. -/
def verifyUser (docs : List User) (email password : String) :
    Except NestError User × List LogEntry :=
  match AbstractRepository.findOne docs (fun u => u.email == email) with
  | (Except.error e, log) => (Except.error e, log)
  | (Except.ok user, log) =>
      if bcryptCompare password user.password then (Except.ok user, log)
      else (Except.error (NestError.unauthorized "Credentials are not valid"), log)

end UsersService

namespace LocalStrategy

/-- LocalStrategy.validate (src/auth/strategies/local.strategy.ts):
delegates to `UsersService.verifyUser` and wraps any error it throws —
whatever its kind — in `UnauthorizedException(err)`, carrying the inner
error along. -/
def validate (docs : List User) (email password : String) :
    Except NestError User × List LogEntry :=
  match UsersService.verifyUser docs email password with
  | (Except.ok user, log) => (Except.ok user, log)
  | (Except.error err, log) =>
      (Except.error (NestError.unauthorizedWrap err), log)

end LocalStrategy

/-- Token payload (src/auth/token-payload.interface.ts, quoted in
src/documentation/SECTION5_CHAPTER_19.md): exactly the user's id (as hex
string) and email. -/
structure TokenPayload where
  _id : String
  email : String
  deriving DecidableEq, Repr

/-- Signed JWT as produced by `jwtService.signAsync`: carries the payload,
the signing secret and the encoded expiry (issue time plus the
module-level `expiresIn` of JWT_EXPIRATION seconds). -/
structure SignedToken where
  payload : TokenPayload
  secret : String
  exp : Nat
  deriving DecidableEq, Repr

/-- Model of `jwtService.signAsync(payload)` under the JwtModule
configuration `secret: JWT_SECRET, signOptions: { expiresIn:
Number(JWT_EXPIRATION) }`. -/
def jwtSignAsync (payload : TokenPayload) (secret : String)
    (expiresIn now : Nat) : SignedToken :=
  { payload := payload, secret := secret, exp := now + expiresIn }

/-- Cookie attached to the Express response via `response.cookie`. -/
structure Cookie where
  name : String
  value : SignedToken
  httpOnly : Bool
  expires : Nat
  deriving DecidableEq, Repr

/-- Outcome of the login endpoint: cookies set on the response and the
response body (`none` = empty body: `AuthController.login` returns
nothing). -/
structure LoginResponse where
  cookies : List Cookie
  body : Option String
  deriving DecidableEq, Repr

namespace AuthService

/-- AuthService.login (src/auth/auth.service.ts, quoted in
src/documentation/SECTION5_CHAPTER_19.md): computes
`expires = now + JWT_EXPIRATION` seconds, builds the token payload
`{ _id, email }` from the verified user, signs it, and sets the
`Authentication` cookie with `httpOnly: true` and the computed `expires`
timestamp.  Returns the response state; the body stays empty. -/
def login (user : User) (now : Nat) (jwtSecret : String)
    (jwtExpiration : Nat) : LoginResponse :=
  let expires := now + jwtExpiration
  let tokenPayload : TokenPayload :=
    { _id := toString user._id, email := user.email }
  let token := jwtSignAsync tokenPayload jwtSecret jwtExpiration now
  { cookies := [{ name := "Authentication", value := token,
                  httpOnly := true, expires := expires }],
    body := none }

end AuthService

namespace AuthController

/-- AuthController.login (src/auth/auth.controller.ts): after the
LocalAuthGuard attached the verified user, delegates to
`AuthService.login` and returns nothing (empty body). -/
def login (user : User) (now : Nat) (jwtSecret : String)
    (jwtExpiration : Nat) : LoginResponse :=
  AuthService.login user now jwtSecret jwtExpiration

end AuthController

/-- GraphQL object type generated for User by the decorators
(src/users/entities/user.entity.ts): AbstractEntity contributes `_id`
(`@Field(() => ID)`) and User contributes `email` (`@Field()`);
`password` carries only `@Prop` and no `@Field`, so the external type has
no password member. -/
structure UserApiView where
  _id : Nat
  email : String
  deriving DecidableEq, Repr

/-- Projection the GraphQL layer applies when a resolver returns a User:
only the `@Field`-decorated members are part of the external type. -/
def toApiView (u : User) : UserApiView :=
  { _id := u._id, email := u.email }

/-- Serialisation of the external representation as response key/value
pairs, one pair per `@Field`-decorated member. -/
def serializeApiView (v : UserApiView) : List (String × String) :=
  [("_id", toString v._id), ("email", v.email)]

/-- A key occurs in a serialised response. -/
def hasKey (kvs : List (String × String)) (k : String) : Bool :=
  kvs.any (fun kv => kv.1 == k)

namespace UsersResolver

/-- Query `users` (src/users/users.resolver.ts): all users, externally
represented. -/
def users (docs : List User) : List UserApiView :=
  (UsersService.findAll docs).map toApiView

/-- Query `user(_id)`: single user, externally represented; fails if not
found. -/
def user (docs : List User) (targetId : Nat) :
    Except NestError UserApiView × List LogEntry :=
  match UsersService.findOne docs targetId with
  | (Except.ok u, log) => (Except.ok (toApiView u), log)
  | (Except.error e, log) => (Except.error e, log)

/-- Mutation `createUser(createUserInput)`. -/
def createUser (docs : List User) (nextId : Nat) (input : CreateUserInput)
    (salt : Nat) : UserApiView × List User × Nat :=
  let (u, docs', nextId') := UsersService.create docs nextId input salt
  (toApiView u, docs', nextId')

/-- Mutation `updateUser(updateUserInput)`. -/
def updateUser (docs : List User) (targetId : Nat) (input : UpdateUserInput)
    (salt : Nat) : Except NestError UserApiView × List User × List LogEntry :=
  match UsersService.update docs targetId input salt with
  | (Except.ok u, docs', log) => (Except.ok (toApiView u), docs', log)
  | (Except.error e, docs', log) => (Except.error e, docs', log)

/-- Mutation `removeUser(_id)`. -/
def removeUser (docs : List User) (targetId : Nat) :
    Option UserApiView × List User :=
  let (u?, docs') := UsersService.remove docs targetId
  (u?.map toApiView, docs')

end UsersResolver

/-- No stored user already carries the email (the unique index's
acceptance condition for a write). -/
def emailFree (docs : List User) (email : String) : Bool :=
  docs.all (fun u => u.email != email)

namespace UsersCollection

/-- Modelled from the migration `src/migrations/user-email-index.ts`
(quoted in src/documentation/SECTION3_CHAPTER_13.md), which runs
`db.collection('users').createIndex({ email: 1 }, { unique: true })` at
startup: the driver rejects an insert that would leave two users with the
same email, raising an E11000 duplicate key error and leaving the
collection unchanged. -/
def save (docs : List User) (u : User) : Except NestError (List User) :=
  if emailFree docs u.email then Except.ok (docs ++ [u])
  else Except.error (NestError.duplicateKey "E11000 duplicate key error")

/-- UsersService.create routed through the users collection with its
unique email index: the document is built exactly as in
`AbstractRepository.create` (fresh `_id`, hashed password) but `save`
enforces the index; on a duplicate email the error propagates untranslated
and the collection is unchanged. -/
def serviceCreate (docs : List User) (nextId : Nat) (input : CreateUserInput)
    (salt : Nat) : Except NestError User × List User × Nat :=
  let document : User :=
    { _id := nextId, email := input.email,
      password := UsersService.hashPassword input.password salt }
  match save docs document with
  | Except.ok docs' => (Except.ok document, docs', nextId + 1)
  | Except.error e => (Except.error e, docs, nextId)

/-- UsersService.update routed through the users collection with its
unique email index: `findOneAndUpdate({ _id }, { $set: ... })` finds the
first user with the id and applies the patched fields, unless the
post-update email would collide with a different stored user, in which
case the driver raises E11000 and the collection is unchanged. -/
def serviceUpdate (docs : List User) (targetId : Nat)
    (input : UpdateUserInput) (salt : Nat) :
    Except NestError User × List User :=
  let upd := UsersService.applySet (UsersService.effectivePatch input salt)
  match docs.find? (fun u => u._id == targetId) with
  | none => (Except.error (NestError.notFound "Document not found"), docs)
  | some u =>
      let u' := upd u
      if (docs.filter (fun v => !(v._id == targetId))).all
          (fun v => v.email != u'.email) then
        (Except.ok u',
         AbstractRepository.updateFirst docs (fun v => v._id == targetId) upd)
      else
        (Except.error (NestError.duplicateKey "E11000 duplicate key error"),
         docs)

/-- UsersService.remove on the users collection (deletes never violate an
index). -/
def serviceRemove (docs : List User) (targetId : Nat) :
    Option User × List User :=
  UsersService.remove docs targetId

end UsersCollection

/-- Collection states reachable through the write operations the API
exposes (createUser, updateUser, removeUser), starting from the empty
users collection; failed writes leave the collection as it was, so both
outcomes of every operation are covered. -/
inductive Reachable : List User → Nat → Prop where
  | init : Reachable [] 0
  | create (input : CreateUserInput) (salt : Nat) {docs : List User}
      {nextId : Nat} (h : Reachable docs nextId) :
      Reachable (UsersCollection.serviceCreate docs nextId input salt).2.1
        (UsersCollection.serviceCreate docs nextId input salt).2.2
  | update (targetId : Nat) (input : UpdateUserInput) (salt : Nat)
      {docs : List User} {nextId : Nat} (h : Reachable docs nextId) :
      Reachable (UsersCollection.serviceUpdate docs targetId input salt).2
        nextId
  | remove (targetId : Nat) {docs : List User} {nextId : Nat}
      (h : Reachable docs nextId) :
      Reachable (UsersCollection.serviceRemove docs targetId).2 nextId

/-- Store invariant maintained by the users collection: identifiers are
pairwise distinct and below the fresh counter, and emails are pairwise
distinct (the unique index). -/
def StoreInv (docs : List User) (nextId : Nat) : Prop :=
  docs.Pairwise (fun a b => a._id ≠ b._id) ∧
  (∀ u ∈ docs, u._id < nextId) ∧
  docs.Pairwise (fun a b => a.email ≠ b.email)

theorem mem_updateFirst {α : Type} {docs : List α} {f : α → Bool}
    {upd : α → α} {b : α}
    (hb : b ∈ AbstractRepository.updateFirst docs f upd) :
    b ∈ docs ∨ ∃ a ∈ docs, f a = true ∧ b = upd a := by
  induction docs with
  | nil => simp [AbstractRepository.updateFirst] at hb
  | cons d rest ih =>
    simp only [AbstractRepository.updateFirst] at hb
    cases hfd : f d with
    | true =>
      rw [hfd] at hb
      simp only [if_true, List.mem_cons] at hb
      rcases hb with hb | hb
      · exact Or.inr ⟨d, List.mem_cons_self d rest, hfd, hb⟩
      · exact Or.inl (List.mem_cons_of_mem d hb)
    | false =>
      rw [hfd] at hb
      simp at hb
      rcases hb with hb | hb
      · exact Or.inl (hb ▸ List.mem_cons_self d rest)
      · rcases ih hb with h | ⟨a, ha, hfa, hba⟩
        · exact Or.inl (List.mem_cons_of_mem d h)
        · exact Or.inr ⟨a, List.mem_cons_of_mem d ha, hfa, hba⟩

theorem updateFirst_map {α β : Type} (docs : List α) (f : α → Bool)
    (upd : α → α) (g : α → β) (hg : ∀ a, g (upd a) = g a) :
    (AbstractRepository.updateFirst docs f upd).map g = docs.map g := by
  induction docs with
  | nil => rfl
  | cons d rest ih =>
    simp only [AbstractRepository.updateFirst]
    cases hfd : f d with
    | true => simp [hg]
    | false => simp [ih]

theorem updateFirst_pairwise_email (docs : List User) (targetId : Nat)
    (upd : User → User) (u : User)
    (hid : docs.Pairwise (fun a b => a._id ≠ b._id))
    (hem : docs.Pairwise (fun a b => a.email ≠ b.email))
    (hfind : docs.find? (fun w => w._id == targetId) = some u)
    (hok : ∀ v ∈ docs, v._id ≠ targetId → v.email ≠ (upd u).email) :
    (AbstractRepository.updateFirst docs (fun w => w._id == targetId)
      upd).Pairwise (fun a b => a.email ≠ b.email) := by
  induction docs with
  | nil => exact List.Pairwise.nil
  | cons d rest ih =>
    rw [List.pairwise_cons] at hid hem
    by_cases hdid : d._id = targetId
    · have hbeq : (d._id == targetId) = true := by simp [hdid]
      rw [List.find?_cons_of_pos (p := fun w => w._id == targetId) rest hbeq]
        at hfind
      have hud : u = d := by
        injection hfind with h
        exact h.symm
      have hrw : AbstractRepository.updateFirst (d :: rest)
          (fun w => w._id == targetId) upd = upd d :: rest := by
        simp only [AbstractRepository.updateFirst]
        rw [if_pos hbeq]
      rw [hrw, List.pairwise_cons]
      refine ⟨?_, hem.2⟩
      intro b hbmem
      have hbid : b._id ≠ targetId := by
        intro hcon
        exact hid.1 b hbmem (by rw [hdid, hcon])
      have hbe := hok b (List.mem_cons_of_mem d hbmem) hbid
      rw [hud] at hbe
      exact fun he => hbe he.symm
    · have hbeq : (d._id == targetId) = false := by simp [hdid]
      rw [List.find?_cons_of_neg (p := fun w => w._id == targetId) rest
        (by simp [hbeq])] at hfind
      have hrw : AbstractRepository.updateFirst (d :: rest)
          (fun w => w._id == targetId) upd
          = d :: AbstractRepository.updateFirst rest
              (fun w => w._id == targetId) upd := by
        simp only [AbstractRepository.updateFirst]
        rw [if_neg (by simp [hbeq])]
      rw [hrw, List.pairwise_cons]
      constructor
      · intro b hbmem
        rcases mem_updateFirst hbmem with hb | ⟨a, ha, hfa, hba⟩
        · exact hem.1 b hb
        · have hau : a = u := by
            have hsym : Symmetric (fun a b : User => a._id ≠ b._id) :=
              fun x y h => h.symm
            have hune : u ∈ rest := List.mem_of_find?_eq_some hfind
            have haid : a._id = targetId := by
              simpa using hfa
            have huid : u._id = targetId := by
              have := List.find?_some hfind
              simpa using this
            by_contra hne
            exact (hid.2.forall hsym) ha hune hne (by rw [haid, huid])
          have := hok d (List.mem_cons_self d rest) hdid
          rw [hba, hau]
          exact this
      · exact ih hid.2 hem.2 hfind
          (fun v hv hvid => hok v (List.mem_cons_of_mem d hv) hvid)

theorem emailFree_spec {docs : List User} {e : String}
    (h : emailFree docs e = true) : ∀ u ∈ docs, u.email ≠ e := by
  intro u hu
  have := List.all_eq_true.mp h u hu
  simpa using this

theorem storeInv_serviceCreate (docs : List User) (nextId : Nat)
    (input : CreateUserInput) (salt : Nat) (h : StoreInv docs nextId) :
    StoreInv (UsersCollection.serviceCreate docs nextId input salt).2.1
      (UsersCollection.serviceCreate docs nextId input salt).2.2 := by
  obtain ⟨hid, hlt, hem⟩ := h
  by_cases hfree : emailFree docs input.email = true
  · have hres : UsersCollection.serviceCreate docs nextId input salt =
        (Except.ok ⟨nextId, input.email,
          UsersService.hashPassword input.password salt⟩,
         docs ++ [⟨nextId, input.email,
           UsersService.hashPassword input.password salt⟩],
         nextId + 1) := by
      simp [UsersCollection.serviceCreate, UsersCollection.save, hfree]
    rw [hres]
    refine ⟨?_, ?_, ?_⟩
    · rw [List.pairwise_append]
      refine ⟨hid, List.pairwise_singleton _ _, ?_⟩
      intro a ha b hb
      simp only [List.mem_singleton] at hb
      rw [hb]
      exact Nat.ne_of_lt (hlt a ha)
    · intro v hv
      rcases List.mem_append.mp hv with hv | hv
      · exact Nat.lt_succ_of_lt (hlt v hv)
      · simp only [List.mem_singleton] at hv
        rw [hv]
        exact Nat.lt_succ_self nextId
    · rw [List.pairwise_append]
      refine ⟨hem, List.pairwise_singleton _ _, ?_⟩
      intro a ha b hb
      simp only [List.mem_singleton] at hb
      rw [hb]
      exact emailFree_spec hfree a ha
  · have hres : UsersCollection.serviceCreate docs nextId input salt =
        (Except.error (NestError.duplicateKey "E11000 duplicate key error"),
         docs, nextId) := by
      simp [UsersCollection.serviceCreate, UsersCollection.save, hfree]
    rw [hres]
    exact ⟨hid, hlt, hem⟩

theorem storeInv_serviceUpdate (docs : List User) (targetId : Nat)
    (input : UpdateUserInput) (salt : Nat) (nextId : Nat)
    (h : StoreInv docs nextId) :
    StoreInv (UsersCollection.serviceUpdate docs targetId input salt).2
      nextId := by
  obtain ⟨hid, hlt, hem⟩ := h
  cases hfind : docs.find? (fun u => u._id == targetId) with
  | none =>
    have hres : (UsersCollection.serviceUpdate docs targetId input salt).2
        = docs := by
      simp [UsersCollection.serviceUpdate, hfind]
    rw [hres]
    exact ⟨hid, hlt, hem⟩
  | some u =>
    by_cases hchk : ((docs.filter (fun v => !(v._id == targetId))).all
        (fun v => v.email !=
          (UsersService.applySet
            (UsersService.effectivePatch input salt) u).email)) = true
    · have hres : (UsersCollection.serviceUpdate docs targetId input salt).2
          = AbstractRepository.updateFirst docs (fun v => v._id == targetId)
              (UsersService.applySet
                (UsersService.effectivePatch input salt)) := by
        simp [UsersCollection.serviceUpdate, hfind, hchk]
      rw [hres]
      have hidpres : ∀ a : User,
          (UsersService.applySet
            (UsersService.effectivePatch input salt) a)._id = a._id :=
        fun a => rfl
      have hmap : (AbstractRepository.updateFirst docs
            (fun v => v._id == targetId)
            (UsersService.applySet
              (UsersService.effectivePatch input salt))).map User._id
          = docs.map User._id :=
        updateFirst_map docs _ _ User._id hidpres
      refine ⟨?_, ?_, ?_⟩
      · have h1 : (docs.map User._id).Pairwise (fun a b => a ≠ b) :=
          List.pairwise_map.mpr hid
        rw [← hmap] at h1
        exact List.pairwise_map.mp h1
      · intro v hv
        have : v._id ∈ (AbstractRepository.updateFirst docs
            (fun v => v._id == targetId)
            (UsersService.applySet
              (UsersService.effectivePatch input salt))).map User._id :=
          List.mem_map_of_mem User._id hv
        rw [hmap] at this
        rcases List.mem_map.mp this with ⟨w, hw, hwid⟩
        rw [← hwid]
        exact hlt w hw
      · refine updateFirst_pairwise_email docs targetId _ u hid hem hfind ?_
        intro v hv hvid
        have hvf : v ∈ docs.filter (fun v => !(v._id == targetId)) := by
          rw [List.mem_filter]
          exact ⟨hv, by simp [hvid]⟩
        have := List.all_eq_true.mp hchk v hvf
        simpa using this
    · have hres : (UsersCollection.serviceUpdate docs targetId input salt).2
          = docs := by
        simp [UsersCollection.serviceUpdate, hfind, hchk]
      rw [hres]
      exact ⟨hid, hlt, hem⟩

theorem storeInv_serviceRemove (docs : List User) (targetId : Nat)
    (nextId : Nat) (h : StoreInv docs nextId) :
    StoreInv (UsersCollection.serviceRemove docs targetId).2 nextId := by
  obtain ⟨hid, hlt, hem⟩ := h
  cases hfind : docs.find? (fun u => u._id == targetId) with
  | none =>
    have hres : (UsersCollection.serviceRemove docs targetId).2 = docs := by
      simp [UsersCollection.serviceRemove, UsersService.remove,
        AbstractRepository.findOneAndDelete, hfind]
    rw [hres]
    exact ⟨hid, hlt, hem⟩
  | some u =>
    have hres : (UsersCollection.serviceRemove docs targetId).2
        = docs.eraseP (fun u => u._id == targetId) := by
      simp [UsersCollection.serviceRemove, UsersService.remove,
        AbstractRepository.findOneAndDelete, hfind]
    rw [hres]
    have hsub : List.Sublist (docs.eraseP (fun u => u._id == targetId)) docs :=
      List.eraseP_sublist docs
    exact ⟨hid.sublist hsub, fun v hv => hlt v (hsub.subset hv),
      hem.sublist hsub⟩

theorem storeInv_of_reachable {docs : List User} {nextId : Nat}
    (h : Reachable docs nextId) : StoreInv docs nextId := by
  induction h with
  | init =>
    exact ⟨List.Pairwise.nil,
      ⟨fun u hu => absurd hu (List.not_mem_nil u), List.Pairwise.nil⟩⟩
  | create input salt h ih => exact storeInv_serviceCreate _ _ input salt ih
  | update targetId input salt h ih =>
    exact storeInv_serviceUpdate _ targetId input salt _ ih
  | remove targetId h ih => exact storeInv_serviceRemove _ targetId _ ih

theorem upd_mem_updateFirst {α : Type} {docs : List α} {f : α → Bool}
    {u : α} (upd : α → α) (hfind : docs.find? f = some u) :
    upd u ∈ AbstractRepository.updateFirst docs f upd := by
  induction docs with
  | nil => simp [List.find?] at hfind
  | cons d rest ih =>
    cases hfd : f d with
    | true =>
      rw [List.find?_cons_of_pos rest hfd] at hfind
      injection hfind with h
      simp only [AbstractRepository.updateFirst]
      rw [if_pos hfd, h]
      exact List.mem_cons_self _ _
    | false =>
      rw [List.find?_cons_of_neg rest (by simp [hfd])] at hfind
      simp only [AbstractRepository.updateFirst]
      rw [if_neg (by simp [hfd])]
      exact List.mem_cons_of_mem d (ih hfind)

/-- C1: the two verifyUser failure paths are NOT symmetric in the code: an
unknown email fails inside the repository lookup with
`NotFoundException("Document not found")` (the generic
`UnauthorizedException` guard after the lookup is unreachable), while a
wrong password for an existing user fails with
`UnauthorizedException("Credentials are not valid")` — different error
kinds, messages and status codes at these concrete inputs, contradicting
the anti-enumeration symmetry the code's own doc comments promise. -/
theorem verifyUser_failure_paths_differ :
    (UsersService.verifyUser [] "a@b.com" "pw").1 =
      Except.error (NestError.notFound "Document not found") ∧
    (UsersService.verifyUser [⟨0, "a@b.com", bcryptHash "secret" 0⟩]
        "a@b.com" "wrong").1 =
      Except.error (NestError.unauthorized "Credentials are not valid") ∧
    NestError.notFound "Document not found" ≠
      NestError.unauthorized "Credentials are not valid" ∧
    (NestError.notFound "Document not found").statusCode ≠
      (NestError.unauthorized "Credentials are not valid").statusCode := by
  refine ⟨rfl, rfl, by decide, by decide⟩

/-- C2: UsersService.create persists the user with a salted one-way hash
of the submitted plaintext: the stored password is the bcrypt hash, never
equals the plaintext, the created document is persisted, and hashing the
same plaintext under a different per-hash random salt yields a different
stored value. -/
theorem create_password_hashed (docs : List User) (nextId : Nat)
    (input : CreateUserInput) (s₁ s₂ : Nat) (hs : s₁ ≠ s₂) :
    (UsersService.create docs nextId input s₁).1.password =
      bcryptHash input.password s₁ ∧
    (UsersService.create docs nextId input s₁).1.password ≠ input.password ∧
    (UsersService.create docs nextId input s₁).1 ∈
      (UsersService.create docs nextId input s₁).2.1 ∧
    (UsersService.create docs nextId input s₁).1.password ≠
      (UsersService.create docs nextId input s₂).1.password := by
  refine ⟨rfl, bcryptHash_ne_password _ _, ?_, bcryptHash_salt_ne _ hs⟩
  exact List.mem_append_right _ (List.mem_singleton.mpr rfl)

theorem create_password_hashed_witness :
    (UsersService.create [] 0 ⟨"a@b.com", "pw"⟩ 0).1.password =
      bcryptHash "pw" 0 ∧
    (UsersService.create [] 0 ⟨"a@b.com", "pw"⟩ 0).1.password ≠ "pw" ∧
    (UsersService.create [] 0 ⟨"a@b.com", "pw"⟩ 0).1 ∈
      (UsersService.create [] 0 ⟨"a@b.com", "pw"⟩ 0).2.1 ∧
    (UsersService.create [] 0 ⟨"a@b.com", "pw"⟩ 0).1.password ≠
      (UsersService.create [] 0 ⟨"a@b.com", "pw"⟩ 1).1.password :=
  create_password_hashed [] 0 ⟨"a@b.com", "pw"⟩ 0 1 (by decide)

/-- C3: in every collection state reachable through the exposed write
operations, email is unique across all persisted Users — the store-level
uniqueness constraint from the email index migration holds invariantly. -/
theorem reachable_emails_unique {docs : List User} {nextId : Nat}
    (h : Reachable docs nextId) :
    docs.Pairwise (fun a b => a.email ≠ b.email) :=
  (storeInv_of_reachable h).2.2

theorem reachable_emails_unique_witness :
    ((UsersCollection.serviceCreate [] 0 ⟨"a@b.com", "pw"⟩ 0).2.1).Pairwise
      (fun a b => a.email ≠ b.email) :=
  reachable_emails_unique
    (Reachable.create ⟨"a@b.com", "pw"⟩ 0 Reachable.init)

/-- C4: on a filter matching no stored document, findOne and
findOneAndUpdate record the warning diagnostic and raise
`NotFoundException` (never a null success), while findOneAndDelete
returns the null no-match indicator without raising or logging. -/
theorem repo_miss_behaviour {α : Type} (docs : List α) (f : α → Bool)
    (upd : α → α) (hmiss : docs.find? f = none) :
    AbstractRepository.findOne docs f =
      (Except.error (NestError.notFound "Document not found"),
       [⟨"warn", "Document not found with filterQuery"⟩]) ∧
    AbstractRepository.findOneAndUpdate docs f upd =
      (Except.error (NestError.notFound "Document not found"), docs,
       [⟨"warn", "Document not found with filterQuery"⟩]) ∧
    AbstractRepository.findOneAndDelete docs f = (none, docs) := by
  refine ⟨?_, ?_, ?_⟩ <;>
    simp [AbstractRepository.findOne, AbstractRepository.findOneAndUpdate,
      AbstractRepository.findOneAndDelete, hmiss]

theorem repo_miss_behaviour_witness :
    AbstractRepository.findOne ([] : List User) (fun _ => false) =
      (Except.error (NestError.notFound "Document not found"),
       [⟨"warn", "Document not found with filterQuery"⟩]) ∧
    AbstractRepository.findOneAndUpdate ([] : List User) (fun _ => false)
        id =
      (Except.error (NestError.notFound "Document not found"), [],
       [⟨"warn", "Document not found with filterQuery"⟩]) ∧
    AbstractRepository.findOneAndDelete ([] : List User) (fun _ => false) =
      (none, []) :=
  repo_miss_behaviour [] (fun _ => false) id rfl

/-- C5: for every verified user, login signs a token whose payload is
exactly the user's id and email with the server secret and configured
expiry, sets it as the single HTTP-only Authentication cookie whose
explicit expires timestamp is now plus the configured lifetime and equals
the token's encoded expiry, and returns an empty body. -/
theorem login_session_cookie (user : User) (now : Nat) (secret : String)
    (expiration : Nat) :
    (AuthController.login user now secret expiration).cookies =
      [{ name := "Authentication",
         value := { payload := { _id := toString user._id,
                                 email := user.email },
                    secret := secret, exp := now + expiration },
         httpOnly := true, expires := now + expiration }] ∧
    ((AuthController.login user now secret expiration).cookies.all
      (fun c => c.expires == c.value.exp)) = true ∧
    (AuthController.login user now secret expiration).body = none := by
  refine ⟨rfl, ?_, rfl⟩
  simp [AuthController.login, AuthService.login, jwtSignAsync]

/-- C6 counterexample: the patch `{ password: "" }` does contain a
password, yet UsersService.update forwards it unhashed — the matched
user's stored password becomes the empty string, not its hash — refuting
the claim as stated at this concrete input. -/
theorem update_contains_password_counterexample :
    (UsersService.update [⟨0, "a@b.com", "oldhash"⟩] 0
        { email := none, password := some "" } 5).1 =
      Except.ok ⟨0, "a@b.com", ""⟩ ∧
    ("" : String) ≠ UsersService.hashPassword "" 5 := by
  refine ⟨rfl, ?_⟩
  exact fun h => bcryptHash_ne_password "" 5 h.symm

/-- C6 (amended): UsersService.update re-hashes the patch's password
exactly when it is truthy (present and nonempty) and forwards the patch
unchanged otherwise; the delegated findOneAndUpdate applies only the
patched fields ($set) to the first user matching the id — `_id` and
absent fields are unchanged — and returns the post-update state of the
matched document, which is persisted. -/
theorem update_semantics (docs : List User) (targetId : Nat)
    (input : UpdateUserInput) (salt : Nat) (u : User)
    (hfind : docs.find? (fun w => w._id == targetId) = some u) :
    ∃ u', (UsersService.update docs targetId input salt).1 =
        Except.ok u' ∧
      u'._id = u._id ∧
      u'.email = input.email.getD u.email ∧
      u'.password = (if UsersService.passwordTruthy input.password then
          UsersService.hashPassword (input.password.getD "") salt
        else input.password.getD u.password) ∧
      u' ∈ (UsersService.update docs targetId input salt).2.1 := by
  refine ⟨UsersService.applySet (UsersService.effectivePatch input salt) u,
    ?_, rfl, ?_, ?_, ?_⟩
  · simp [UsersService.update, AbstractRepository.findOneAndUpdate, hfind]
  · by_cases ht : UsersService.passwordTruthy input.password = true
    · simp [UsersService.applySet, UsersService.effectivePatch, ht]
    · simp [UsersService.applySet, UsersService.effectivePatch, ht]
  · by_cases ht : UsersService.passwordTruthy input.password = true
    · simp [UsersService.applySet, UsersService.effectivePatch,
        UsersService.hashPassword, ht]
    · simp [UsersService.applySet, UsersService.effectivePatch, ht]
  · have hstore : (UsersService.update docs targetId input salt).2.1 =
        AbstractRepository.updateFirst docs (fun w => w._id == targetId)
          (UsersService.applySet (UsersService.effectivePatch input salt)) := by
      simp [UsersService.update, AbstractRepository.findOneAndUpdate, hfind]
    rw [hstore]
    exact upd_mem_updateFirst _ hfind

theorem update_semantics_witness :
    ∃ u', (UsersService.update [⟨0, "a@b.com", "oldhash"⟩] 0
        { email := some "n@e.com", password := some "npw" } 3).1 =
        Except.ok u' ∧
      u'._id = (⟨0, "a@b.com", "oldhash"⟩ : User)._id ∧
      u'.email = (some "n@e.com").getD (⟨0, "a@b.com", "oldhash"⟩ : User).email ∧
      u'.password = (if UsersService.passwordTruthy (some "npw") then
          UsersService.hashPassword ((some "npw").getD "") 3
        else (some "npw").getD (⟨0, "a@b.com", "oldhash"⟩ : User).password) ∧
      u' ∈ (UsersService.update [⟨0, "a@b.com", "oldhash"⟩] 0
        { email := some "n@e.com", password := some "npw" } 3).2.1 :=
  update_semantics [⟨0, "a@b.com", "oldhash"⟩] 0
    { email := some "n@e.com", password := some "npw" } 3
    ⟨0, "a@b.com", "oldhash"⟩ rfl

/-- C7: the repository's create persists the full document — all payload
fields plus a freshly generated identifier — returns it as saved, ignores
any caller-supplied identifier (the spread overrides it), and the fresh
identifier collides with no stored document's identifier. -/
theorem repo_create_fresh_id (docs : List User) (nextId : Nat)
    (payload : AbstractRepository.UserPayload)
    (hfresh : ∀ u ∈ docs, u._id < nextId) :
    (AbstractRepository.create docs nextId payload).1 =
      ⟨nextId, payload.email, payload.password⟩ ∧
    (AbstractRepository.create docs nextId payload).2.1 =
      docs ++ [(AbstractRepository.create docs nextId payload).1] ∧
    (∀ j : Nat, AbstractRepository.create docs nextId
        { payload with _id := some j } =
      AbstractRepository.create docs nextId payload) ∧
    (AbstractRepository.create docs nextId payload).1._id ∉
      docs.map User._id := by
  refine ⟨rfl, rfl, fun j => rfl, ?_⟩
  intro hmem
  rcases List.mem_map.mp hmem with ⟨w, hw, hwid⟩
  exact absurd hwid (Nat.ne_of_lt (hfresh w hw))

theorem repo_create_fresh_id_witness :
    (AbstractRepository.create [] 0 ⟨"a@b.com", "h", none⟩).1 =
      ⟨0, "a@b.com", "h"⟩ ∧
    (AbstractRepository.create [] 0 ⟨"a@b.com", "h", none⟩).2.1 =
      [] ++ [(AbstractRepository.create [] 0 ⟨"a@b.com", "h", none⟩).1] ∧
    (∀ j : Nat, AbstractRepository.create [] 0
        { (⟨"a@b.com", "h", none⟩ : AbstractRepository.UserPayload) with
          _id := some j } =
      AbstractRepository.create [] 0 ⟨"a@b.com", "h", none⟩) ∧
    (AbstractRepository.create [] 0 ⟨"a@b.com", "h", none⟩).1._id ∉
      ([] : List User).map User._id :=
  repo_create_fresh_id [] 0 ⟨"a@b.com", "h", none⟩
    (fun u hu => absurd hu (List.not_mem_nil u))

/-- A serialised external User representation never carries a "password"
key: the external type has only the @Field-decorated members. -/
theorem serialize_no_password (v : UserApiView) :
    hasKey (serializeApiView v) "password" = false := rfl

/-- Checker for the password key in a fallible query response. -/
def exceptResponseHasPasswordKey : Except NestError UserApiView → Bool
  | Except.ok v => hasKey (serializeApiView v) "password"
  | Except.error _ => false

/-- Checker for the password key in a nullable mutation response. -/
def optionResponseHasPasswordKey : Option UserApiView → Bool
  | some v => hasKey (serializeApiView v) "password"
  | none => false

theorem exceptResponse_no_password (e : Except NestError UserApiView) :
    exceptResponseHasPasswordKey e = false := by
  cases e with
  | ok v => exact serialize_no_password v
  | error _ => rfl

theorem optionResponse_no_password (o : Option UserApiView) :
    optionResponseHasPasswordKey o = false := by
  cases o with
  | some v => exact serialize_no_password v
  | none => rfl

/-- C8: for every API operation — queries users and user(id), mutations
createUser, updateUser, removeUser — the externally returned
representation of a User never contains the password field, even though
the internally persisted user document carries the password hash. -/
theorem api_never_exposes_password (docs : List User)
    (nextId targetId : Nat) (input : CreateUserInput)
    (patch : UpdateUserInput) (salt : Nat) :
    ((UsersResolver.users docs).all
      (fun v => !(hasKey (serializeApiView v) "password"))) = true ∧
    exceptResponseHasPasswordKey
      (UsersResolver.user docs targetId).1 = false ∧
    hasKey (serializeApiView
      (UsersResolver.createUser docs nextId input salt).1) "password"
      = false ∧
    exceptResponseHasPasswordKey
      (UsersResolver.updateUser docs targetId patch salt).1 = false ∧
    optionResponseHasPasswordKey
      (UsersResolver.removeUser docs targetId).1 = false ∧
    (UsersService.create docs nextId input salt).1.password =
      bcryptHash input.password salt := by
  refine ⟨?_, exceptResponse_no_password _, serialize_no_password _,
    exceptResponse_no_password _, optionResponse_no_password _, rfl⟩
  rw [List.all_eq_true]
  intro v hv
  rw [serialize_no_password v]
  rfl

/-- C9: UsersService.update decides whether to re-hash by JavaScript
truthiness: a patch whose password is the empty string is forwarded to
findOneAndUpdate unhashed, and the matched user's password is persisted
verbatim as the empty plaintext string (equal to no bcrypt hash of ""). -/
theorem update_empty_password_stored_plaintext (docs : List User)
    (targetId : Nat) (salt : Nat) (u : User)
    (hfind : docs.find? (fun w => w._id == targetId) = some u) :
    (UsersService.update docs targetId
        { email := none, password := some "" } salt).1 =
      Except.ok { u with password := "" } ∧
    { u with password := "" } ∈
      (UsersService.update docs targetId
        { email := none, password := some "" } salt).2.1 ∧
    ({ u with password := "" } : User).password = "" ∧
    (∀ s : Nat,
      ({ u with password := "" } : User).password ≠ bcryptHash "" s) := by
  have hpatch : UsersService.effectivePatch
      { email := none, password := some "" } salt =
      { email := none, password := some "" } := rfl
  have happ : UsersService.applySet
      { email := none, password := some "" } u = { u with password := "" } := rfl
  refine ⟨?_, ?_, rfl, fun s => (bcryptHash_ne_password "" s).symm⟩
  · simp [UsersService.update, AbstractRepository.findOneAndUpdate, hfind,
      hpatch, happ]
  · have hstore : (UsersService.update docs targetId
        { email := none, password := some "" } salt).2.1 =
        AbstractRepository.updateFirst docs (fun w => w._id == targetId)
          (UsersService.applySet (UsersService.effectivePatch
            { email := none, password := some "" } salt)) := by
      simp [UsersService.update, AbstractRepository.findOneAndUpdate, hfind]
    rw [hstore, hpatch]
    have := upd_mem_updateFirst
      (UsersService.applySet { email := none, password := some "" }) hfind
    rw [happ] at this
    exact this

theorem update_empty_password_stored_plaintext_witness :
    (UsersService.update [⟨0, "a@b.com", "oldhash"⟩] 0
        { email := none, password := some "" } 5).1 =
      Except.ok { (⟨0, "a@b.com", "oldhash"⟩ : User) with password := "" } ∧
    { (⟨0, "a@b.com", "oldhash"⟩ : User) with password := "" } ∈
      (UsersService.update [⟨0, "a@b.com", "oldhash"⟩] 0
        { email := none, password := some "" } 5).2.1 ∧
    ({ (⟨0, "a@b.com", "oldhash"⟩ : User) with password := "" } : User).password
      = "" ∧
    (∀ s : Nat,
      ({ (⟨0, "a@b.com", "oldhash"⟩ : User) with
        password := "" } : User).password ≠ bcryptHash "" s) :=
  update_empty_password_stored_plaintext [⟨0, "a@b.com", "oldhash"⟩] 0 5
    ⟨0, "a@b.com", "oldhash"⟩ rfl

/-- C10: LocalStrategy.validate wraps every error verifyUser throws — of
any kind, including the repository's not-found error — in
`UnauthorizedException(err)` carrying the inner error, so every failing
login surfaces a 401 unauthorized-kind failure regardless of the
underlying cause, and successes pass through unchanged. -/
theorem validate_wraps_errors (docs : List User) (email password : String) :
    (∀ e, (UsersService.verifyUser docs email password).1 =
        Except.error e →
      (LocalStrategy.validate docs email password).1 =
        Except.error (NestError.unauthorizedWrap e)) ∧
    (∀ r, (LocalStrategy.validate docs email password).1 =
        Except.error r →
      r.statusCode = 401 ∧ ∃ e, r = NestError.unauthorizedWrap e ∧
        (UsersService.verifyUser docs email password).1 = Except.error e) ∧
    (∀ u, (UsersService.verifyUser docs email password).1 = Except.ok u →
      (LocalStrategy.validate docs email password).1 = Except.ok u) := by
  rcases hveq : UsersService.verifyUser docs email password with ⟨r, log⟩
  cases r with
  | ok u0 =>
    have hval : (LocalStrategy.validate docs email password).1 =
        Except.ok u0 := by
      simp [LocalStrategy.validate, hveq]
    refine ⟨?_, ?_, ?_⟩
    · intro e he
      exact absurd he (by simp)
    · intro r' hr'
      rw [hval] at hr'
      exact absurd hr' (by simp)
    · intro u hu
      simp at hu
      rw [← hu]
      exact hval
  | error e0 =>
    have hval : (LocalStrategy.validate docs email password).1 =
        Except.error (NestError.unauthorizedWrap e0) := by
      simp [LocalStrategy.validate, hveq]
    refine ⟨?_, ?_, ?_⟩
    · intro e he
      simp at he
      rw [← he]
      exact hval
    · intro r' hr'
      rw [hval] at hr'
      have hr'eq : r' = NestError.unauthorizedWrap e0 := by
        injection hr' with h
        exact h.symm
      subst hr'eq
      exact ⟨rfl, e0, rfl, rfl⟩
    · intro u hu
      exact absurd hu (by simp)

theorem validate_wraps_errors_witness :
    (LocalStrategy.validate [] "a@b.com" "pw").1 =
      Except.error (NestError.unauthorizedWrap
        (NestError.notFound "Document not found")) :=
  (validate_wraps_errors [] "a@b.com" "pw").1
    (NestError.notFound "Document not found") rfl
